import Mathlib

/-
Verification of the PageRank estimators in pagerank.py.

The corpus (a Python dict mapping each page name to the set of pages it
links to) is embedded as a list of page names in dict insertion order plus
a link function. Python dicts with string keys become association lists
`List (String × ℚ)` that keep the key order; dict reads and writes become
`lookup`, `setKey` and `addKey`. Real arithmetic is modelled exactly by ℚ.
The unbounded `while True` loop of iterate_pagerank is modelled by a fuel
parameter: `none` means the loop did not finish within the given number of
passes. The weighted random draw of sample_pagerank
(`random.choices(list(corpus.keys()), ...)`) always returns an element of
the key list; it is modelled by an arbitrary oracle `picks : Nat → Nat`
choosing an index into that list at every step, so that a property proved
for all `picks` holds for every possible random outcome.
-/

structure Corpus where
  pages : List String
  links : String → List String

/- Well-formedness invariants of a corpus produced by crawl: dict keys are
distinct, each link set is a set (no duplicates) whose members are keys. -/
def Corpus.WF (c : Corpus) : Prop :=
  c.pages.Nodup ∧ ∀ p ∈ c.pages, (c.links p).Nodup ∧ ∀ q ∈ c.links p, q ∈ c.pages

/- Reading `result[k]` from an association list; 0 when the key is absent
(the code only reads keys that are present). -/
def lookup : List (String × ℚ) → String → ℚ
  | [], _ => 0
  | kv :: rest, k => if kv.1 = k then kv.2 else lookup rest k

/- `result[k] += v` on an existing key. -/
def addKey (l : List (String × ℚ)) (k : String) (v : ℚ) : List (String × ℚ) :=
  l.map (fun kv => if kv.1 = k then (kv.1, kv.2 + v) else kv)

/- `result[k] = v` on an existing key. -/
def setKey (l : List (String × ℚ)) (k : String) (v : ℚ) : List (String × ℚ) :=
  l.map (fun kv => if kv.1 = k then (kv.1, v) else kv)

/- Sum of the stored values of an association list. -/
def valsSum (l : List (String × ℚ)) : ℚ :=
  (l.map Prod.snd).sum

/- transition_model from pagerank.py lines 52-80: if the page has no links
return the uniform distribution, otherwise give every page the base mass
(1 - damping_factor)/N and add damping_factor/k to each linked page. -/
def transition_model (c : Corpus) (page : String) (damping_factor : ℚ) :
    List (String × ℚ) :=
  if (c.links page).length = 0 then
    c.pages.map (fun p => (p, 1 / (c.pages.length : ℚ)))
  else
    (c.links page).foldl
      (fun acc p => addKey acc p (damping_factor / ((c.links page).length : ℚ)))
      (c.pages.map (fun p => (p, (1 - damping_factor) / (c.pages.length : ℚ))))

def defaultPage : String := ""

/- The page drawn at step i of the random walk: some element of the key
list, chosen by the oracle. -/
def chosen (c : Corpus) (picks : Nat → Nat) (i : Nat) : String :=
  c.pages.getD (picks i % c.pages.length) defaultPage

/- `result[current] += 1` for visit counters. -/
def addCount (l : List (String × ℕ)) (k : String) : List (String × ℕ) :=
  l.map (fun kv => if kv.1 = k then (kv.1, kv.2 + 1) else kv)

/- The visit counters of sample_pagerank after the first `steps` loop
iterations (lines 92-105): all counters start at 0, each step increments
the counter of the drawn page. -/
def sample_counts (c : Corpus) (picks : Nat → Nat) : Nat → List (String × ℕ)
  | 0 => c.pages.map (fun p => (p, 0))
  | steps + 1 => addCount (sample_counts c picks steps) (chosen c picks steps)

/- sample_pagerank from pagerank.py lines 83-109. `range(n)` runs
`n.toNat` iterations (none when n ≤ 0); the final `result[p] /= n` raises
ZeroDivisionError when n = 0, modelled as `none`. The damping factor only
shapes the weights handed to random.choices, which the oracle abstracts. -/
def sample_pagerank (c : Corpus) (damping_factor : ℚ) (n : ℤ)
    (picks : Nat → Nat) : Option (List (String × ℚ)) :=
  let _ := damping_factor
  if n = 0 then none
  else some ((sample_counts c picks n.toNat).map
    (fun kv => (kv.1, (kv.2 : ℚ) / (n : ℚ))))

/- The inner sigma loop and update formula of iterate_pagerank
(lines 130-138), computed against the CURRENT contents of `result`: sinks
contribute result[linker]/N, linkers of `page` contribute
result[linker]/len(corpus[linker]). -/
def pass_page (c : Corpus) (damping_factor : ℚ) (result : List (String × ℚ))
    (page : String) : ℚ :=
  (1 - damping_factor) / (c.pages.length : ℚ) + damping_factor *
    (c.pages.foldl (fun acc linker =>
      if (c.links linker).length = 0 then
        acc + lookup result linker / (c.pages.length : ℚ)
      else if page ∈ c.links linker then
        acc + lookup result linker / ((c.links linker).length : ℚ)
      else acc) 0)

/- One full pass of the while loop (lines 128-142): for each page in key
order, compute the new rank from the current (in-place updated) state,
record whether any change exceeded 0.001, and write the new rank back
immediately. Returns the updated state and the `go` flag. -/
def one_pass (c : Corpus) (damping_factor : ℚ) (st : List (String × ℚ)) :
    List (String × ℚ) × Bool :=
  c.pages.foldl (fun acc page =>
    (setKey acc.1 page (pass_page c damping_factor acc.1 page),
     if |pass_page c damping_factor acc.1 page - lookup acc.1 page| > 1/1000
     then true else acc.2)) (st, false)

/- Initial ranks (lines 121-125): 1/N for every page. -/
def init_ranks (c : Corpus) : List (String × ℚ) :=
  c.pages.map (fun p => (p, 1 / (c.pages.length : ℚ)))

/- The while loop, fuelled: run a pass; if some page moved by more than
0.001 keep looping, else return. `none` when fuel runs out first. -/
def iterate_loop (c : Corpus) (damping_factor : ℚ) :
    Nat → List (String × ℚ) → Option (List (String × ℚ))
  | 0, _ => none
  | fuel + 1, st =>
    if (one_pass c damping_factor st).2 then
      iterate_loop c damping_factor fuel (one_pass c damping_factor st).1
    else some (one_pass c damping_factor st).1

/- iterate_pagerank from pagerank.py lines 112-145 (fuelled). -/
def iterate_pagerank (c : Corpus) (damping_factor : ℚ) (fuel : Nat) :
    Option (List (String × ℚ)) :=
  iterate_loop c damping_factor fuel (init_ranks c)

/- The contribution of one linker to the sum of the update formula, as a
term rather than a fold step. -/
def contrib (c : Corpus) (st : List (String × ℚ)) (page linker : String) : ℚ :=
  if (c.links linker).length = 0 then lookup st linker / (c.pages.length : ℚ)
  else if page ∈ c.links linker then
    lookup st linker / ((c.links linker).length : ℚ)
  else 0

/- The update formula written as a sum over the universe. -/
def new_rank (c : Corpus) (damping_factor : ℚ) (st : List (String × ℚ))
    (page : String) : ℚ :=
  (1 - damping_factor) / (c.pages.length : ℚ) + damping_factor *
    (c.pages.map (contrib c st page)).sum

/- One pass restated with the explicit sum formula; the state each update
reads is the accumulator, i.e. the in-place updated dictionary. -/
def one_pass_spec (c : Corpus) (damping_factor : ℚ) (st : List (String × ℚ)) :
    List (String × ℚ) × Bool :=
  c.pages.foldl (fun acc page =>
    (setKey acc.1 page (new_rank c damping_factor acc.1 page),
     if |new_rank c damping_factor acc.1 page - lookup acc.1 page| > 1/1000
     then true else acc.2)) (st, false)

/- Modelled from the spec wording of claim C1: a pass in which every rank
read is the rank from the previous complete pass (a stable snapshot). -/
def snapshot_pass (c : Corpus) (damping_factor : ℚ) (st : List (String × ℚ)) :
    List (String × ℚ) :=
  st.map (fun kv => (kv.1, pass_page c damping_factor st kv.1))

/- The rank-state part of a pass restricted to a list of pages to process;
`one_pass` processes exactly `c.pages`. -/
def pass_ranks (c : Corpus) (damping_factor : ℚ) (st : List (String × ℚ)) :
    List String → List (String × ℚ)
  | [] => st
  | page :: rest =>
    pass_ranks c damping_factor
      (setKey st page (pass_page c damping_factor st page)) rest

/- Concrete two-page corpus: A is a sink, B links to A. -/
def pA : String := "A"

def pB : String := "B"

def corpus2 : Corpus :=
  ⟨[pA, pB], fun p => if p = pB then [pA] else []⟩

/- Concrete one-page corpus with no links. -/
def singleCorpus (name : String) : Corpus :=
  ⟨[name], fun _ => []⟩

/- A concrete oracle for closed evaluations. -/
def picks0 : Nat → Nat := fun _ => 0

/-! ### Association list lemmas -/

theorem keys_map_pair (pages : List String) (f : String → ℚ) :
    (pages.map (fun p => (p, f p))).map Prod.fst = pages := by
  induction pages with
  | nil => rfl
  | cons p rest ih => simp [ih]

theorem lookup_map_pair {pages : List String} {p : String} (f : String → ℚ)
    (hp : p ∈ pages) :
    lookup (pages.map (fun q => (q, f q))) p = f p := by
  induction pages with
  | nil => cases hp
  | cons q rest ih =>
    by_cases h : q = p
    · subst h; simp [lookup]
    · have hp2 : p ∈ rest := by
        rcases List.mem_cons.mp hp with h1 | h1
        · exact absurd h1.symm h
        · exact h1
      simp [lookup, h, ih hp2]

theorem lookup_nonneg {l : List (String × ℚ)} (h : ∀ kv ∈ l, 0 ≤ kv.2)
    (q : String) : 0 ≤ lookup l q := by
  induction l with
  | nil => simp [lookup]
  | cons kv rest ih =>
    by_cases hq : kv.1 = q
    · simpa [lookup, hq] using h kv (by simp)
    · simpa [lookup, hq] using ih (fun x hx => h x (by simp [hx]))

theorem keys_addKey (l : List (String × ℚ)) (k : String) (v : ℚ) :
    (addKey l k v).map Prod.fst = l.map Prod.fst := by
  induction l with
  | nil => rfl
  | cons kv rest ih =>
    by_cases h : kv.1 = k <;> simp [addKey, h] <;>
      simpa [addKey] using ih

theorem keys_setKey (l : List (String × ℚ)) (k : String) (v : ℚ) :
    (setKey l k v).map Prod.fst = l.map Prod.fst := by
  induction l with
  | nil => rfl
  | cons kv rest ih =>
    by_cases h : kv.1 = k <;> simp [setKey, h] <;>
      simpa [setKey] using ih

theorem addKey_of_not_mem {l : List (String × ℚ)} {k : String}
    (h : k ∉ l.map Prod.fst) (v : ℚ) : addKey l k v = l := by
  induction l with
  | nil => rfl
  | cons kv rest ih =>
    simp only [List.map_cons, List.mem_cons] at h
    push_neg at h
    simp [addKey, Ne.symm h.1]
    simpa [addKey] using ih h.2

theorem lookup_addKey_ne {l : List (String × ℚ)} {k q : String}
    (h : q ≠ k) (v : ℚ) : lookup (addKey l k v) q = lookup l q := by
  induction l with
  | nil => rfl
  | cons kv rest ih =>
    show lookup ((if kv.1 = k then (kv.1, kv.2 + v) else kv) :: addKey rest k v) q
        = lookup (kv :: rest) q
    by_cases hk : kv.1 = k
    · rw [if_pos hk]
      have hq : kv.1 ≠ q := by rw [hk]; intro hh; exact h hh.symm
      simp [lookup, hq]
      exact ih
    · rw [if_neg hk]
      by_cases hq : kv.1 = q
      · simp [lookup, hq]
      · simp [lookup, hq]
        exact ih

theorem lookup_addKey_self {l : List (String × ℚ)} {k : String}
    (h : k ∈ l.map Prod.fst) (v : ℚ) :
    lookup (addKey l k v) k = lookup l k + v := by
  induction l with
  | nil => cases h
  | cons kv rest ih =>
    by_cases hk : kv.1 = k
    · simp [addKey, lookup, hk]
    · simp only [List.map_cons, List.mem_cons] at h
      rcases h with h | h
      · exact absurd h.symm hk
      · simp [addKey, lookup, hk]
        simpa [addKey] using ih h

theorem lookup_setKey_ne {l : List (String × ℚ)} {k q : String}
    (h : q ≠ k) (v : ℚ) : lookup (setKey l k v) q = lookup l q := by
  induction l with
  | nil => rfl
  | cons kv rest ih =>
    show lookup ((if kv.1 = k then (kv.1, v) else kv) :: setKey rest k v) q
        = lookup (kv :: rest) q
    by_cases hk : kv.1 = k
    · rw [if_pos hk]
      have hq : kv.1 ≠ q := by rw [hk]; intro hh; exact h hh.symm
      simp [lookup, hq]
      exact ih
    · rw [if_neg hk]
      by_cases hq : kv.1 = q
      · simp [lookup, hq]
      · simp [lookup, hq]
        exact ih

theorem lookup_setKey_self {l : List (String × ℚ)} {k : String}
    (h : k ∈ l.map Prod.fst) (v : ℚ) :
    lookup (setKey l k v) k = v := by
  induction l with
  | nil => cases h
  | cons kv rest ih =>
    by_cases hk : kv.1 = k
    · simp [setKey, lookup, hk]
    · simp only [List.map_cons, List.mem_cons] at h
      rcases h with h | h
      · exact absurd h.symm hk
      · simp [setKey, lookup, hk]
        simpa [setKey] using ih h

theorem setKey_vals_nonneg {l : List (String × ℚ)} {k : String} {v : ℚ}
    (hl : ∀ kv ∈ l, 0 ≤ kv.2) (hv : 0 ≤ v) :
    ∀ kv ∈ setKey l k v, 0 ≤ kv.2 := by
  intro kv hkv
  simp only [setKey, List.mem_map] at hkv
  obtain ⟨kv0, hkv0, heq⟩ := hkv
  by_cases h : kv0.1 = k
  · simp [h] at heq; rw [← heq]; exact hv
  · simp [h] at heq; rw [← heq]; exact hl kv0 hkv0

theorem valsSum_addKey {l : List (String × ℚ)} {k : String}
    (hnd : (l.map Prod.fst).Nodup) (h : k ∈ l.map Prod.fst) (v : ℚ) :
    valsSum (addKey l k v) = valsSum l + v := by
  induction l with
  | nil => cases h
  | cons kv rest ih =>
    simp only [List.map_cons, List.nodup_cons] at hnd
    show valsSum ((if kv.1 = k then (kv.1, kv.2 + v) else kv) :: addKey rest k v)
        = valsSum (kv :: rest) + v
    by_cases hk : kv.1 = k
    · rw [if_pos hk]
      have hrest : k ∉ rest.map Prod.fst := hk ▸ hnd.1
      rw [addKey_of_not_mem hrest]
      simp only [valsSum, List.map_cons, List.sum_cons]
      ring
    · rw [if_neg hk]
      have hmem : k ∈ rest.map Prod.fst := by
        rcases List.mem_cons.mp h with h1 | h1
        · exact absurd h1.symm hk
        · exact h1
      have hrec := ih hnd.2 hmem
      simp only [valsSum, List.map_cons, List.sum_cons] at hrec ⊢
      rw [hrec]; ring

theorem setKey_of_not_mem {l : List (String × ℚ)} {k : String}
    (h : k ∉ l.map Prod.fst) (v : ℚ) : setKey l k v = l := by
  induction l with
  | nil => rfl
  | cons kv rest ih =>
    simp only [List.map_cons, List.mem_cons] at h
    push_neg at h
    simp [setKey, Ne.symm h.1]
    simpa [setKey] using ih h.2

theorem keys_foldl_addKey (v : ℚ) :
    ∀ (links : List String) (l : List (String × ℚ)),
      ((links.foldl (fun acc p => addKey acc p v) l)).map Prod.fst
        = l.map Prod.fst := by
  intro links
  induction links with
  | nil => intro l; rfl
  | cons p rest ih =>
    intro l
    simp only [List.foldl_cons]
    rw [ih (addKey l p v), keys_addKey]

theorem valsSum_foldl_addKey (v : ℚ) :
    ∀ (links : List String) (l : List (String × ℚ)),
      (l.map Prod.fst).Nodup → (∀ p ∈ links, p ∈ l.map Prod.fst) →
      valsSum (links.foldl (fun acc p => addKey acc p v) l)
        = valsSum l + (links.length : ℚ) * v := by
  intro links
  induction links with
  | nil => intro l _ _; simp
  | cons p rest ih =>
    intro l hnd hsub
    simp only [List.foldl_cons]
    rw [ih (addKey l p v) (by rw [keys_addKey]; exact hnd)
        (fun q hq => by rw [keys_addKey]; exact hsub q (by simp [hq]))]
    rw [valsSum_addKey hnd (hsub p (by simp)) v]
    simp only [List.length_cons]
    push_cast
    ring

theorem lookup_foldl_addKey_not_mem (v : ℚ) :
    ∀ (links : List String) (l : List (String × ℚ)) (q : String), q ∉ links →
      lookup (links.foldl (fun acc p => addKey acc p v) l) q = lookup l q := by
  intro links
  induction links with
  | nil => intro l q _; rfl
  | cons p rest ih =>
    intro l q hq
    simp only [List.mem_cons, not_or] at hq
    simp only [List.foldl_cons]
    rw [ih (addKey l p v) q hq.2, lookup_addKey_ne hq.1]

theorem lookup_foldl_addKey_mem (v : ℚ) :
    ∀ (links : List String) (l : List (String × ℚ)) (q : String),
      links.Nodup → q ∈ links → q ∈ l.map Prod.fst →
      lookup (links.foldl (fun acc p => addKey acc p v) l) q
        = lookup l q + v := by
  intro links
  induction links with
  | nil => intro l q _ hq _; cases hq
  | cons p rest ih =>
    intro l q hnd hq hql
    simp only [List.nodup_cons] at hnd
    simp only [List.foldl_cons]
    by_cases hpq : q = p
    · subst hpq
      rw [lookup_foldl_addKey_not_mem v rest _ q hnd.1,
          lookup_addKey_self hql v]
    · have hq2 : q ∈ rest := by
        rcases List.mem_cons.mp hq with h1 | h1
        · exact absurd h1 hpq
        · exact h1
      rw [ih (addKey l p v) q hnd.2 hq2 (by rw [keys_addKey]; exact hql),
          lookup_addKey_ne hpq]

theorem valsSum_map_const (pages : List String) (x : ℚ) :
    valsSum (pages.map (fun p => (p, x))) = (pages.length : ℚ) * x := by
  induction pages with
  | nil => simp [valsSum]
  | cons p rest ih =>
    simp only [valsSum, List.map_cons, List.sum_cons] at ih ⊢
    rw [ih]
    simp only [List.length_cons]
    push_cast
    ring

theorem foldl_add_eq (f : String → ℚ) :
    ∀ (l : List String) (a : ℚ),
      l.foldl (fun acc x => acc + f x) a = a + (l.map f).sum := by
  intro l
  induction l with
  | nil => intro a; simp
  | cons x rest ih =>
    intro a
    simp only [List.foldl_cons, List.map_cons, List.sum_cons]
    rw [ih]
    ring

/-! ### The per-page update of iterate_pagerank as a sum -/

theorem pass_page_eq (c : Corpus) (d : ℚ) (st : List (String × ℚ))
    (page : String) :
    pass_page c d st page = new_rank c d st page := by
  unfold pass_page new_rank
  have hfun : (fun (acc : ℚ) linker =>
      if (c.links linker).length = 0 then
        acc + lookup st linker / (c.pages.length : ℚ)
      else if page ∈ c.links linker then
        acc + lookup st linker / ((c.links linker).length : ℚ)
      else acc)
      = fun (acc : ℚ) linker => acc + contrib c st page linker := by
    funext acc linker
    unfold contrib
    split_ifs <;> ring
  rw [hfun, foldl_add_eq]
  ring

theorem one_pass_eq_spec (c : Corpus) (d : ℚ) (st : List (String × ℚ)) :
    one_pass c d st = one_pass_spec c d st := by
  unfold one_pass one_pass_spec
  apply List.foldl_ext
  intro a b _
  rw [pass_page_eq]

theorem one_pass_fst (c : Corpus) (d : ℚ) :
    ∀ (ps : List String) (st : List (String × ℚ)) (b : Bool),
      (ps.foldl (fun acc page =>
        (setKey acc.1 page (pass_page c d acc.1 page),
         if |pass_page c d acc.1 page - lookup acc.1 page| > 1/1000
         then true else acc.2)) (st, b)).1 = pass_ranks c d st ps := by
  intro ps
  induction ps with
  | nil => intro st b; rfl
  | cons p rest ih =>
    intro st b
    simp only [List.foldl_cons, pass_ranks]
    exact ih _ _

theorem one_pass_ranks (c : Corpus) (d : ℚ) (st : List (String × ℚ)) :
    (one_pass c d st).1 = pass_ranks c d st c.pages :=
  one_pass_fst c d c.pages st false

theorem keys_pass_ranks (c : Corpus) (d : ℚ) :
    ∀ (ps : List String) (st : List (String × ℚ)),
      (pass_ranks c d st ps).map Prod.fst = st.map Prod.fst := by
  intro ps
  induction ps with
  | nil => intro st; rfl
  | cons p rest ih =>
    intro st
    simp only [pass_ranks]
    rw [ih, keys_setKey]

/-! ### Lower bound invariants of the iteration state -/

theorem pass_page_lower (c : Corpus) {d : ℚ} (hd0 : 0 ≤ d)
    {st : List (String × ℚ)} (hst : ∀ kv ∈ st, 0 ≤ kv.2) (page : String) :
    (1 - d) / (c.pages.length : ℚ) ≤ pass_page c d st page := by
  rw [pass_page_eq]
  unfold new_rank
  have hsum : 0 ≤ (c.pages.map (contrib c st page)).sum := by
    apply List.sum_nonneg
    intro x hx
    simp only [List.mem_map] at hx
    obtain ⟨linker, _, rfl⟩ := hx
    have hl := lookup_nonneg hst linker
    unfold contrib
    split_ifs
    · exact div_nonneg hl (Nat.cast_nonneg _)
    · exact div_nonneg hl (Nat.cast_nonneg _)
    · exact le_refl 0
  exact le_add_of_nonneg_right (mul_nonneg hd0 hsum)

theorem base_nonneg (c : Corpus) {d : ℚ} (hd1 : d ≤ 1) :
    (0 : ℚ) ≤ (1 - d) / (c.pages.length : ℚ) :=
  div_nonneg (by linarith) (Nat.cast_nonneg _)

theorem pass_ranks_nonneg (c : Corpus) {d : ℚ} (hd0 : 0 ≤ d) (hd1 : d ≤ 1) :
    ∀ (ps : List String) (st : List (String × ℚ)),
      (∀ kv ∈ st, 0 ≤ kv.2) → ∀ kv ∈ pass_ranks c d st ps, 0 ≤ kv.2 := by
  intro ps
  induction ps with
  | nil => intro st hst; exact hst
  | cons p rest ih =>
    intro st hst
    apply ih
    exact setKey_vals_nonneg hst
      (le_trans (base_nonneg c hd1) (pass_page_lower c hd0 hst p))

theorem pass_ranks_keeps_bound (c : Corpus) {d : ℚ} (hd0 : 0 ≤ d) (hd1 : d ≤ 1) :
    ∀ (ps : List String) (st : List (String × ℚ)) (q : String),
      (∀ kv ∈ st, 0 ≤ kv.2) →
      (1 - d) / (c.pages.length : ℚ) ≤ lookup st q →
      (1 - d) / (c.pages.length : ℚ) ≤ lookup (pass_ranks c d st ps) q := by
  intro ps
  induction ps with
  | nil => intro st q _ hq; exact hq
  | cons p rest ih =>
    intro st q hst hq
    simp only [pass_ranks]
    apply ih
    · exact setKey_vals_nonneg hst
        (le_trans (base_nonneg c hd1) (pass_page_lower c hd0 hst p))
    · by_cases hpq : q = p
      · subst hpq
        by_cases hmem : q ∈ st.map Prod.fst
        · rw [lookup_setKey_self hmem]
          exact pass_page_lower c hd0 hst q
        · rw [setKey_of_not_mem hmem]
          exact hq
      · rw [lookup_setKey_ne hpq]
        exact hq

theorem pass_ranks_bound_mem (c : Corpus) {d : ℚ} (hd0 : 0 ≤ d) (hd1 : d ≤ 1) :
    ∀ (ps : List String) (st : List (String × ℚ)) (q : String),
      (∀ kv ∈ st, 0 ≤ kv.2) → st.map Prod.fst = c.pages → q ∈ ps →
      (∀ p ∈ ps, p ∈ c.pages) →
      (1 - d) / (c.pages.length : ℚ) ≤ lookup (pass_ranks c d st ps) q := by
  intro ps
  induction ps with
  | nil => intro st q _ _ hq _; cases hq
  | cons p rest ih =>
    intro st q hst hkeys hq hsub
    simp only [pass_ranks]
    have hst2 : ∀ kv ∈ setKey st p (pass_page c d st p), 0 ≤ kv.2 :=
      setKey_vals_nonneg hst
        (le_trans (base_nonneg c hd1) (pass_page_lower c hd0 hst p))
    by_cases hpq : q = p
    · subst hpq
      apply pass_ranks_keeps_bound c hd0 hd1 rest _ q hst2
      have hmem : q ∈ st.map Prod.fst := by
        rw [hkeys]; exact hsub q (by simp)
      rw [lookup_setKey_self hmem]
      exact pass_page_lower c hd0 hst q
    · have hq2 : q ∈ rest := by
        rcases List.mem_cons.mp hq with h1 | h1
        · exact absurd h1 hpq
        · exact h1
      exact ih _ q hst2 (by rw [keys_setKey]; exact hkeys) hq2
        (fun x hx => hsub x (by simp [hx]))

theorem iterate_loop_lower (c : Corpus) {d : ℚ} (hd0 : 0 ≤ d) (hd1 : d ≤ 1) :
    ∀ (fuel : Nat) (st r : List (String × ℚ)),
      (∀ kv ∈ st, 0 ≤ kv.2) → st.map Prod.fst = c.pages →
      iterate_loop c d fuel st = some r →
      r.map Prod.fst = c.pages ∧
        ∀ q ∈ c.pages, (1 - d) / (c.pages.length : ℚ) ≤ lookup r q := by
  intro fuel
  induction fuel with
  | zero => intro st r _ _ h; cases h
  | succ fuel ih =>
    intro st r hst hkeys h
    have h1 : (one_pass c d st).1 = pass_ranks c d st c.pages :=
      one_pass_ranks c d st
    have hkeys2 : (one_pass c d st).1.map Prod.fst = c.pages := by
      rw [h1, keys_pass_ranks, hkeys]
    have hst2 : ∀ kv ∈ (one_pass c d st).1, 0 ≤ kv.2 := by
      rw [h1]; exact pass_ranks_nonneg c hd0 hd1 _ _ hst
    simp only [iterate_loop] at h
    by_cases hgo : (one_pass c d st).2
    · rw [if_pos hgo] at h
      exact ih _ r hst2 hkeys2 h
    · rw [if_neg hgo] at h
      have hr : (one_pass c d st).1 = r := by
        injection h
      subst hr
      refine ⟨hkeys2, fun q hq => ?_⟩
      rw [h1]
      exact pass_ranks_bound_mem c hd0 hd1 c.pages st q hst hkeys hq
        (fun x hx => hx)

/-! ### Counter lemmas for the sampling estimator -/

theorem keys_addCount (l : List (String × ℕ)) (k : String) :
    (addCount l k).map Prod.fst = l.map Prod.fst := by
  induction l with
  | nil => rfl
  | cons kv rest ih =>
    by_cases h : kv.1 = k <;> simp [addCount, h] <;>
      simpa [addCount] using ih

theorem addCount_of_not_mem {l : List (String × ℕ)} {k : String}
    (h : k ∉ l.map Prod.fst) : addCount l k = l := by
  induction l with
  | nil => rfl
  | cons kv rest ih =>
    simp only [List.map_cons, List.mem_cons] at h
    push_neg at h
    simp [addCount, Ne.symm h.1]
    simpa [addCount] using ih h.2

theorem countsSum_addCount {l : List (String × ℕ)} {k : String}
    (hnd : (l.map Prod.fst).Nodup) (h : k ∈ l.map Prod.fst) :
    ((addCount l k).map Prod.snd).sum = (l.map Prod.snd).sum + 1 := by
  induction l with
  | nil => cases h
  | cons kv rest ih =>
    simp only [List.map_cons, List.nodup_cons] at hnd
    show ((List.map Prod.snd
        ((if kv.1 = k then (kv.1, kv.2 + 1) else kv) :: addCount rest k))).sum
      = ((kv :: rest).map Prod.snd).sum + 1
    by_cases hk : kv.1 = k
    · rw [if_pos hk]
      have hrest : k ∉ rest.map Prod.fst := hk ▸ hnd.1
      rw [addCount_of_not_mem hrest]
      simp only [List.map_cons, List.sum_cons]
      omega
    · rw [if_neg hk]
      have hmem : k ∈ rest.map Prod.fst := by
        rcases List.mem_cons.mp h with h1 | h1
        · exact absurd h1.symm hk
        · exact h1
      have hrec := ih hnd.2 hmem
      simp only [List.map_cons, List.sum_cons] at hrec ⊢
      omega

theorem chosen_mem (c : Corpus) (picks : Nat → Nat) (i : Nat)
    (hne : c.pages ≠ []) : chosen c picks i ∈ c.pages := by
  unfold chosen
  have hlen : 0 < c.pages.length := List.length_pos.mpr hne
  have hlt : picks i % c.pages.length < c.pages.length := Nat.mod_lt _ hlen
  rw [List.getD_eq_getElem c.pages defaultPage hlt]
  exact List.getElem_mem hlt

theorem keys_sample_counts (c : Corpus) (picks : Nat → Nat) (steps : Nat) :
    (sample_counts c picks steps).map Prod.fst = c.pages := by
  induction steps with
  | zero =>
    show ((c.pages.map (fun p => (p, (0 : ℕ)))).map Prod.fst) = c.pages
    induction c.pages with
    | nil => rfl
    | cons p rest ih => simp [ih]
  | succ steps ih =>
    show ((addCount (sample_counts c picks steps)
        (chosen c picks steps)).map Prod.fst) = c.pages
    rw [keys_addCount, ih]

theorem countsSum_sample_counts (c : Corpus) (picks : Nat → Nat)
    (hne : c.pages ≠ []) (hnd : c.pages.Nodup) (steps : Nat) :
    ((sample_counts c picks steps).map Prod.snd).sum = steps := by
  induction steps with
  | zero =>
    show ((c.pages.map (fun p => (p, (0 : ℕ)))).map Prod.snd).sum = 0
    induction c.pages with
    | nil => rfl
    | cons p rest ih => simpa using ih
  | succ steps ih =>
    show ((addCount (sample_counts c picks steps)
        (chosen c picks steps)).map Prod.snd).sum = steps + 1
    rw [countsSum_addCount (by rw [keys_sample_counts]; exact hnd)
      (by rw [keys_sample_counts]; exact chosen_mem c picks steps hne), ih]

/-! ### Claim theorems -/

/-- Claim C1 counterexample: on the two-page corpus (A a sink, B linking
to A) with damping factor 0.85, the first pass of iterate_pagerank gives B
the rank 1209/3200, because B reads the rank of A already updated earlier
in the same pass; the stable-snapshot pass demanded by the claim gives B
the rank 23/80. So it is false that every rank read during a pass is the
rank from the previous complete pass. -/
theorem c1_counterexample :
    (one_pass corpus2 (17/20) (init_ranks corpus2)).1
        = [(pA, 57/80), (pB, 1209/3200)]
    ∧ snapshot_pass corpus2 (17/20) (init_ranks corpus2)
        = [(pA, 57/80), (pB, 23/80)]
    ∧ (one_pass corpus2 (17/20) (init_ranks corpus2)).1
        ≠ snapshot_pass corpus2 (17/20) (init_ranks corpus2) := by
  have hinit : init_ranks corpus2 = [(pA, 1/2), (pB, 1/2)] := by
    simp [init_ranks, corpus2, pA, pB]
  have h1 : (one_pass corpus2 (17/20) (init_ranks corpus2)).1
      = [(pA, 57/80), (pB, 1209/3200)] := by
    rw [hinit]
    simp [one_pass, pass_page, corpus2, pA, pB, lookup, setKey, lt_abs]
    norm_num
  have h2 : snapshot_pass corpus2 (17/20) (init_ranks corpus2)
      = [(pA, 57/80), (pB, 23/80)] := by
    rw [hinit]
    simp [snapshot_pass, pass_page, corpus2, pA, pB, lookup]
    norm_num
  refine ⟨h1, h2, ?_⟩
  rw [h1, h2]
  simp only [ne_eq, List.cons.injEq, Prod.mk.injEq]
  norm_num

/-- Claim C1 (amended): each full pass of iterate_pagerank computes, for
every page p in corpus key order, new_rank(p) = (1 - d)/N + d * (sum over
every linker in the universe of: rank(linker)/N if linker is a sink,
rank(linker)/|link set of linker| if that link set contains p, else 0),
but every rank read is the CURRENT value of the result dictionary, which
is updated in place: pages processed earlier in the same pass contribute
their freshly updated ranks, not a stable snapshot of the previous pass. -/
theorem c1_pass_formula_inplace :
    ∀ (c : Corpus) (d : ℚ) (st : List (String × ℚ)),
      one_pass c d st = one_pass_spec c d st :=
  one_pass_eq_spec

/-- Claim C2: for a well-formed graph, a page of the universe with at
least one outgoing link and a damping factor in (0,1), transition_model
returns a distribution whose key list is exactly the universe, whose
value at every page p is the base mass (1-d)/N plus an extra d/k exactly
when p is linked from the page (and only the base mass otherwise), and
whose values sum to exactly 1, hence to 1.0 within 1e-9. -/
theorem c2_transition_linked (c : Corpus) (page : String) (d : ℚ)
    (hnd : c.pages.Nodup) (hpage : page ∈ c.pages)
    (hlinks : c.links page ≠ []) (hlnd : (c.links page).Nodup)
    (hsub : ∀ q ∈ c.links page, q ∈ c.pages)
    (hd0 : 0 < d) (hd1 : d < 1) :
    (transition_model c page d).map Prod.fst = c.pages
    ∧ (∀ p ∈ c.pages, lookup (transition_model c page d) p
        = (1 - d) / (c.pages.length : ℚ)
          + (if p ∈ c.links page then d / ((c.links page).length : ℚ) else 0))
    ∧ valsSum (transition_model c page d) = 1
    ∧ |valsSum (transition_model c page d) - 1| ≤ 1 / 1000000000 := by
  have hlen0 : ¬(c.links page).length = 0 := by
    simpa [List.length_eq_zero] using hlinks
  have hNnat : 0 < c.pages.length :=
    List.length_pos.mpr (List.ne_nil_of_mem hpage)
  have hN : (0:ℚ) < (c.pages.length : ℚ) := by exact_mod_cast hNnat
  have hk : ((c.links page).length : ℚ) ≠ 0 := by exact_mod_cast hlen0
  have htm : transition_model c page d = (c.links page).foldl
      (fun acc p => addKey acc p (d / ((c.links page).length : ℚ)))
      (c.pages.map (fun p => (p, (1 - d) / (c.pages.length : ℚ)))) := by
    unfold transition_model
    rw [if_neg hlen0]
  have hbasekeys : (c.pages.map
      (fun p => (p, (1 - d) / (c.pages.length : ℚ)))).map Prod.fst
      = c.pages := keys_map_pair _ _
  have hkeys : (transition_model c page d).map Prod.fst = c.pages := by
    rw [htm, keys_foldl_addKey, hbasekeys]
  have hsum : valsSum (transition_model c page d) = 1 := by
    rw [htm, valsSum_foldl_addKey (d / ((c.links page).length : ℚ))
      (c.links page)
      (c.pages.map (fun p => (p, (1 - d) / (c.pages.length : ℚ))))
      (by rw [hbasekeys]; exact hnd)
      (fun q hq => by rw [hbasekeys]; exact hsub q hq)]
    rw [valsSum_map_const]
    field_simp
  refine ⟨hkeys, ?_, hsum, by rw [hsum]; norm_num⟩
  intro p hp
  by_cases hmem : p ∈ c.links page
  · rw [htm, lookup_foldl_addKey_mem (d / ((c.links page).length : ℚ))
      (c.links page)
      (c.pages.map (fun q => (q, (1 - d) / (c.pages.length : ℚ)))) p
      hlnd hmem (by rw [keys_map_pair]; exact hp)]
    rw [lookup_map_pair _ hp, if_pos hmem]
  · rw [htm, lookup_foldl_addKey_not_mem (d / ((c.links page).length : ℚ))
      (c.links page)
      (c.pages.map (fun q => (q, (1 - d) / (c.pages.length : ℚ)))) p hmem]
    rw [lookup_map_pair _ hp, if_neg hmem, add_zero]

/-- Claim C2 witness: the theorem applied to the two-page corpus at its
linked page B with damping factor 0.85. -/
theorem c2_transition_linked_witness :
    (transition_model corpus2 pB (17/20)).map Prod.fst = corpus2.pages
    ∧ valsSum (transition_model corpus2 pB (17/20)) = 1 :=
  ⟨(c2_transition_linked corpus2 pB (17/20) (by decide) (by decide)
      (by decide) (by decide) (by decide) (by norm_num) (by norm_num)).1,
   (c2_transition_linked corpus2 pB (17/20) (by decide) (by decide)
      (by decide) (by decide) (by decide) (by norm_num) (by norm_num)).2.2.1⟩

/-- Claim C3: for a page of the universe with an empty link set (a sink),
transition_model returns exactly the uniform distribution assigning 1/N
to every page of the universe, independently of the damping factor. -/
theorem c3_transition_sink (c : Corpus) (page : String) (d d2 : ℚ)
    (hsink : c.links page = []) :
    transition_model c page d
        = c.pages.map (fun p => (p, 1 / (c.pages.length : ℚ)))
    ∧ (∀ p ∈ c.pages, lookup (transition_model c page d) p
        = 1 / (c.pages.length : ℚ))
    ∧ transition_model c page d = transition_model c page d2 := by
  have h0 : (c.links page).length = 0 := by simp [hsink]
  have huni : transition_model c page d
      = c.pages.map (fun p => (p, 1 / (c.pages.length : ℚ))) := by
    unfold transition_model
    rw [if_pos h0]
  have huni2 : transition_model c page d2
      = c.pages.map (fun p => (p, 1 / (c.pages.length : ℚ))) := by
    unfold transition_model
    rw [if_pos h0]
  refine ⟨huni, fun p hp => ?_, by rw [huni, huni2]⟩
  rw [huni]
  exact lookup_map_pair _ hp

/-- Claim C3 witness: the theorem applied to the sink page A of the
two-page corpus, with damping factors 0.85 and 0.5. -/
theorem c3_transition_sink_witness :
    transition_model corpus2 pA (17/20)
        = corpus2.pages.map (fun p => (p, 1 / (corpus2.pages.length : ℚ)))
    ∧ transition_model corpus2 pA (17/20) = transition_model corpus2 pA (1/2) :=
  ⟨(c3_transition_sink corpus2 pA (17/20) (1/2) (by decide)).1,
   (c3_transition_sink corpus2 pA (17/20) (1/2) (by decide)).2.2⟩

/- Unfolding steps of the fuelled while loop. -/
theorem iterate_loop_succ_true {c : Corpus} {d : ℚ} {st st2 : List (String × ℚ)}
    (h : one_pass c d st = (st2, true)) (fuel : Nat) :
    iterate_loop c d (fuel + 1) st = iterate_loop c d fuel st2 := by
  show (if (one_pass c d st).2 then iterate_loop c d fuel (one_pass c d st).1
    else some (one_pass c d st).1) = iterate_loop c d fuel st2
  rw [h]
  simp

theorem iterate_loop_succ_false {c : Corpus} {d : ℚ} {st st2 : List (String × ℚ)}
    (h : one_pass c d st = (st2, false)) (fuel : Nat) :
    iterate_loop c d (fuel + 1) st = some st2 := by
  show (if (one_pass c d st).2 then iterate_loop c d fuel (one_pass c d st).1
    else some (one_pass c d st).1) = some st2
  rw [h]
  simp

/-- Claim C4 divergence: on the two-page corpus (A a sink, B linking to A)
with damping factor 0.85, iterate_pagerank does terminate, and only after
a pass in which no rank moved by more than 0.001 (exactly 13 passes here,
12 passes of fuel being insufficient), but the returned ranks sum to about
1.00504: the distance from 1 exceeds the claimed 1e-6 tolerance (and
contradicts the docstring promise that the values sum to 1), because the
loop never renormalizes and the in-place relaxation stops while mass is
still inflated. -/
theorem c4_sum_divergence :
    iterate_pagerank corpus2 (17/20) 12 = none
    ∧ (iterate_pagerank corpus2 (17/20) 13).isSome = true
    ∧ |valsSum ((iterate_pagerank corpus2 (17/20) 13).getD []) - 1|
        > 1 / 1000000 := by
  have hinit : init_ranks corpus2 = [(pA, 1/2), (pB, 1/2)] := by
    simp [init_ranks, corpus2, pA, pB]
  have e1 : one_pass corpus2 (17/20) [(pA, (1/2)), (pB, (1/2))]
      = ([(pA, (57/80)), (pB, (1209/3200))], true) := by
    simp [one_pass, pass_page, corpus2, pA, pB, lookup, setKey, lt_abs]
    norm_num
  have e2 : one_pass corpus2 (17/20) [(pA, (57/80)), (pB, (1209/3200))]
      = ([(pA, (44733/64000)), (pB, (952461/2560000))], true) := by
    simp [one_pass, pass_page, corpus2, pA, pB, lookup, setKey, lt_abs]
    norm_num
  have e3 : one_pass corpus2 (17/20) [(pA, (44733/64000)), (pB, (952461/2560000))]
      = ([(pA, (35241057/51200000)), (pB, (752697969/2048000000))], true) := by
    simp [one_pass, pass_page, corpus2, pA, pB, lookup, setKey, lt_abs]
    norm_num
  have e4 : one_pass corpus2 (17/20) [(pA, (35241057/51200000)), (pB, (752697969/2048000000))]
      = ([(pA, (27849824853/40960000000)), (pB, (596327022501/1638400000000))], true) := by
    simp [one_pass, pass_page, corpus2, pA, pB, lookup, setKey, lt_abs]
    norm_num
  have e5 : one_pass corpus2 (17/20) [(pA, (27849824853/40960000000)), (pB, (596327022501/1638400000000))]
      = ([(pA, (22064099832537/32768000000000)), (pB, (473393697153129/1310720000000000))], true) := by
    simp [one_pass, pass_page, corpus2, pA, pB, lookup, setKey, lt_abs]
    norm_num
  have e6 : one_pass corpus2 (17/20) [(pA, (22064099832537/32768000000000)), (pB, (473393697153129/1310720000000000))]
      = ([(pA, (17515566794665773/26214400000000000)), (pB, (376407835509318141/1048576000000000000))], true) := by
    simp [one_pass, pass_page, corpus2, pA, pB, lookup, setKey, lt_abs]
    norm_num
  have e7 : one_pass corpus2 (17/20) [(pA, (17515566794665773/26214400000000000)), (pB, (376407835509318141/1048576000000000000))]
      = ([(pA, (13927089913844771217/20971520000000000000)), (pB, (299675088535361110689/838860800000000000000))], true) := by
    simp [one_pass, pass_page, corpus2, pA, pB, lookup, setKey, lt_abs]
    norm_num
  have e8 : one_pass corpus2 (17/20) [(pA, (13927089913844771217/20971520000000000000)), (pB, (299675088535361110689/838860800000000000000))]
      = ([(pA, (11087978275808361095493/16777216000000000000000)), (pB, (238827278688742138623381/671088640000000000000000))], true) := by
    simp [one_pass, pass_page, corpus2, pA, pB, lookup, setKey, lt_abs]
    norm_num
  have e9 : one_pass corpus2 (17/20) [(pA, (11087978275808361095493/16777216000000000000000)), (pB, (238827278688742138623381/671088640000000000000000))]
      = ([(pA, (8836609311483459129065097/13421772800000000000000000)), (pB, (190487676695218805194106649/536870912000000000000000000))], true) := by
    simp [one_pass, pass_page, corpus2, pA, pB, lookup, setKey, lt_abs]
    norm_num
  have e10 : one_pass corpus2 (17/20) [(pA, (8836609311483459129065097/13421772800000000000000000)), (pB, (190487676695218805194106649/536870912000000000000000000))]
      = ([(pA, (7048044037723095792181946013/10737418240000000000000000000)), (pB, (152029003361292628467093082221/429496729600000000000000000000))], true) := by
    simp [one_pass, pass_page, corpus2, pA, pB, lookup, setKey, lt_abs]
    norm_num
  have e11 : one_pass corpus2 (17/20) [(pA, (7048044037723095792181946013/10737418240000000000000000000)), (pB, (152029003361292628467093082221/429496729600000000000000000000))]
      = ([(pA, (5625073124367827253282444042177/8589934592000000000000000000000)), (pB, (121396046890253063305801548717009/343597383680000000000000000000000))], true) := by
    simp [one_pass, pass_page, corpus2, pA, pB, lookup, setKey, lt_abs]
    norm_num
  have e12 : one_pass corpus2 (17/20) [(pA, (5625073124367827253282444042177/8589934592000000000000000000000)), (pB, (121396046890253063305801548717009/343597383680000000000000000000000))]
      = ([(pA, (4491653734939363342314657302529333/6871947673600000000000000000000000)), (pB, (96973956514769176819349174142998661/274877906944000000000000000000000000))], true) := by
    simp [one_pass, pass_page, corpus2, pA, pB, lookup, setKey, lt_abs]
    norm_num
  have e13 : one_pass corpus2 (17/20) [(pA, (4491653734939363342314657302529333/6871947673600000000000000000000000)), (pB, (96973956514769176819349174142998661/274877906944000000000000000000000000))]
      = ([(pA, (3588036391046459542315919443290950457/5497558138880000000000000000000000000)), (pB, (77489293064429812219370630535946157769/219902325555200000000000000000000000000))], false) := by
    simp [one_pass, pass_page, corpus2, pA, pB, lookup, setKey, lt_abs]
    norm_num
  have s1 : iterate_loop corpus2 (17/20) 13 [(pA, (1/2)), (pB, (1/2))]
      = iterate_loop corpus2 (17/20) 12 [(pA, (57/80)), (pB, (1209/3200))] :=
    iterate_loop_succ_true e1 12
  have s2 : iterate_loop corpus2 (17/20) 12 [(pA, (57/80)), (pB, (1209/3200))]
      = iterate_loop corpus2 (17/20) 11 [(pA, (44733/64000)), (pB, (952461/2560000))] :=
    iterate_loop_succ_true e2 11
  have s3 : iterate_loop corpus2 (17/20) 11 [(pA, (44733/64000)), (pB, (952461/2560000))]
      = iterate_loop corpus2 (17/20) 10 [(pA, (35241057/51200000)), (pB, (752697969/2048000000))] :=
    iterate_loop_succ_true e3 10
  have s4 : iterate_loop corpus2 (17/20) 10 [(pA, (35241057/51200000)), (pB, (752697969/2048000000))]
      = iterate_loop corpus2 (17/20) 9 [(pA, (27849824853/40960000000)), (pB, (596327022501/1638400000000))] :=
    iterate_loop_succ_true e4 9
  have s5 : iterate_loop corpus2 (17/20) 9 [(pA, (27849824853/40960000000)), (pB, (596327022501/1638400000000))]
      = iterate_loop corpus2 (17/20) 8 [(pA, (22064099832537/32768000000000)), (pB, (473393697153129/1310720000000000))] :=
    iterate_loop_succ_true e5 8
  have s6 : iterate_loop corpus2 (17/20) 8 [(pA, (22064099832537/32768000000000)), (pB, (473393697153129/1310720000000000))]
      = iterate_loop corpus2 (17/20) 7 [(pA, (17515566794665773/26214400000000000)), (pB, (376407835509318141/1048576000000000000))] :=
    iterate_loop_succ_true e6 7
  have s7 : iterate_loop corpus2 (17/20) 7 [(pA, (17515566794665773/26214400000000000)), (pB, (376407835509318141/1048576000000000000))]
      = iterate_loop corpus2 (17/20) 6 [(pA, (13927089913844771217/20971520000000000000)), (pB, (299675088535361110689/838860800000000000000))] :=
    iterate_loop_succ_true e7 6
  have s8 : iterate_loop corpus2 (17/20) 6 [(pA, (13927089913844771217/20971520000000000000)), (pB, (299675088535361110689/838860800000000000000))]
      = iterate_loop corpus2 (17/20) 5 [(pA, (11087978275808361095493/16777216000000000000000)), (pB, (238827278688742138623381/671088640000000000000000))] :=
    iterate_loop_succ_true e8 5
  have s9 : iterate_loop corpus2 (17/20) 5 [(pA, (11087978275808361095493/16777216000000000000000)), (pB, (238827278688742138623381/671088640000000000000000))]
      = iterate_loop corpus2 (17/20) 4 [(pA, (8836609311483459129065097/13421772800000000000000000)), (pB, (190487676695218805194106649/536870912000000000000000000))] :=
    iterate_loop_succ_true e9 4
  have s10 : iterate_loop corpus2 (17/20) 4 [(pA, (8836609311483459129065097/13421772800000000000000000)), (pB, (190487676695218805194106649/536870912000000000000000000))]
      = iterate_loop corpus2 (17/20) 3 [(pA, (7048044037723095792181946013/10737418240000000000000000000)), (pB, (152029003361292628467093082221/429496729600000000000000000000))] :=
    iterate_loop_succ_true e10 3
  have s11 : iterate_loop corpus2 (17/20) 3 [(pA, (7048044037723095792181946013/10737418240000000000000000000)), (pB, (152029003361292628467093082221/429496729600000000000000000000))]
      = iterate_loop corpus2 (17/20) 2 [(pA, (5625073124367827253282444042177/8589934592000000000000000000000)), (pB, (121396046890253063305801548717009/343597383680000000000000000000000))] :=
    iterate_loop_succ_true e11 2
  have s12 : iterate_loop corpus2 (17/20) 2 [(pA, (5625073124367827253282444042177/8589934592000000000000000000000)), (pB, (121396046890253063305801548717009/343597383680000000000000000000000))]
      = iterate_loop corpus2 (17/20) 1 [(pA, (4491653734939363342314657302529333/6871947673600000000000000000000000)), (pB, (96973956514769176819349174142998661/274877906944000000000000000000000000))] :=
    iterate_loop_succ_true e12 1
  have s13 : iterate_loop corpus2 (17/20) 1 [(pA, (4491653734939363342314657302529333/6871947673600000000000000000000000)), (pB, (96973956514769176819349174142998661/274877906944000000000000000000000000))]
      = some [(pA, (3588036391046459542315919443290950457/5497558138880000000000000000000000000)), (pB, (77489293064429812219370630535946157769/219902325555200000000000000000000000000))] :=
    iterate_loop_succ_false e13 0
  have t1 : iterate_loop corpus2 (17/20) 12 [(pA, (1/2)), (pB, (1/2))]
      = iterate_loop corpus2 (17/20) 11 [(pA, (57/80)), (pB, (1209/3200))] :=
    iterate_loop_succ_true e1 11
  have t2 : iterate_loop corpus2 (17/20) 11 [(pA, (57/80)), (pB, (1209/3200))]
      = iterate_loop corpus2 (17/20) 10 [(pA, (44733/64000)), (pB, (952461/2560000))] :=
    iterate_loop_succ_true e2 10
  have t3 : iterate_loop corpus2 (17/20) 10 [(pA, (44733/64000)), (pB, (952461/2560000))]
      = iterate_loop corpus2 (17/20) 9 [(pA, (35241057/51200000)), (pB, (752697969/2048000000))] :=
    iterate_loop_succ_true e3 9
  have t4 : iterate_loop corpus2 (17/20) 9 [(pA, (35241057/51200000)), (pB, (752697969/2048000000))]
      = iterate_loop corpus2 (17/20) 8 [(pA, (27849824853/40960000000)), (pB, (596327022501/1638400000000))] :=
    iterate_loop_succ_true e4 8
  have t5 : iterate_loop corpus2 (17/20) 8 [(pA, (27849824853/40960000000)), (pB, (596327022501/1638400000000))]
      = iterate_loop corpus2 (17/20) 7 [(pA, (22064099832537/32768000000000)), (pB, (473393697153129/1310720000000000))] :=
    iterate_loop_succ_true e5 7
  have t6 : iterate_loop corpus2 (17/20) 7 [(pA, (22064099832537/32768000000000)), (pB, (473393697153129/1310720000000000))]
      = iterate_loop corpus2 (17/20) 6 [(pA, (17515566794665773/26214400000000000)), (pB, (376407835509318141/1048576000000000000))] :=
    iterate_loop_succ_true e6 6
  have t7 : iterate_loop corpus2 (17/20) 6 [(pA, (17515566794665773/26214400000000000)), (pB, (376407835509318141/1048576000000000000))]
      = iterate_loop corpus2 (17/20) 5 [(pA, (13927089913844771217/20971520000000000000)), (pB, (299675088535361110689/838860800000000000000))] :=
    iterate_loop_succ_true e7 5
  have t8 : iterate_loop corpus2 (17/20) 5 [(pA, (13927089913844771217/20971520000000000000)), (pB, (299675088535361110689/838860800000000000000))]
      = iterate_loop corpus2 (17/20) 4 [(pA, (11087978275808361095493/16777216000000000000000)), (pB, (238827278688742138623381/671088640000000000000000))] :=
    iterate_loop_succ_true e8 4
  have t9 : iterate_loop corpus2 (17/20) 4 [(pA, (11087978275808361095493/16777216000000000000000)), (pB, (238827278688742138623381/671088640000000000000000))]
      = iterate_loop corpus2 (17/20) 3 [(pA, (8836609311483459129065097/13421772800000000000000000)), (pB, (190487676695218805194106649/536870912000000000000000000))] :=
    iterate_loop_succ_true e9 3
  have t10 : iterate_loop corpus2 (17/20) 3 [(pA, (8836609311483459129065097/13421772800000000000000000)), (pB, (190487676695218805194106649/536870912000000000000000000))]
      = iterate_loop corpus2 (17/20) 2 [(pA, (7048044037723095792181946013/10737418240000000000000000000)), (pB, (152029003361292628467093082221/429496729600000000000000000000))] :=
    iterate_loop_succ_true e10 2
  have t11 : iterate_loop corpus2 (17/20) 2 [(pA, (7048044037723095792181946013/10737418240000000000000000000)), (pB, (152029003361292628467093082221/429496729600000000000000000000))]
      = iterate_loop corpus2 (17/20) 1 [(pA, (5625073124367827253282444042177/8589934592000000000000000000000)), (pB, (121396046890253063305801548717009/343597383680000000000000000000000))] :=
    iterate_loop_succ_true e11 1
  have t12 : iterate_loop corpus2 (17/20) 1 [(pA, (5625073124367827253282444042177/8589934592000000000000000000000)), (pB, (121396046890253063305801548717009/343597383680000000000000000000000))]
      = iterate_loop corpus2 (17/20) 0 [(pA, (4491653734939363342314657302529333/6871947673600000000000000000000000)), (pB, (96973956514769176819349174142998661/274877906944000000000000000000000000))] :=
    iterate_loop_succ_true e12 0
  have h13 : iterate_pagerank corpus2 (17/20) 13 = some [(pA, (3588036391046459542315919443290950457/5497558138880000000000000000000000000)), (pB, (77489293064429812219370630535946157769/219902325555200000000000000000000000000))] := by
    show iterate_loop corpus2 (17/20) 13 (init_ranks corpus2) = _
    rw [hinit, s1, s2, s3, s4, s5, s6, s7, s8, s9, s10, s11, s12, s13]
  have h12 : iterate_pagerank corpus2 (17/20) 12 = none := by
    show iterate_loop corpus2 (17/20) 12 (init_ranks corpus2) = none
    rw [hinit, t1, t2, t3, t4, t5, t6, t7, t8, t9, t10, t11, t12]
    rfl
  refine ⟨h12, by rw [h13]; rfl, ?_⟩
  rw [h13]
  show |valsSum [(pA, (3588036391046459542315919443290950457/5497558138880000000000000000000000000)), (pB, (77489293064429812219370630535946157769/219902325555200000000000000000000000000))] - 1| > 1 / 1000000
  rw [gt_iff_lt, lt_abs]
  left
  simp only [valsSum, List.map_cons, List.map_nil, List.sum_cons, List.sum_nil]
  norm_num

/-- Claim C5 counterexample: sample_pagerank called with sample count -5
(which is ≤ 0) on the two-page corpus does not fail and is not rejected:
the sampling loop body runs zero times and a distribution of all zeros is
returned, so no InvalidSampleCount rejection exists in the code. -/
theorem c5_counterexample :
    sample_pagerank corpus2 (17/20) (-5) picks0 = some [(pA, 0), (pB, 0)] := by
  unfold sample_pagerank
  rw [if_neg (by norm_num)]
  show some ((sample_counts corpus2 picks0 (Int.toNat (-5))).map
    (fun kv => (kv.1, (kv.2 : ℚ) / ((-5 : ℤ) : ℚ)))) = _
  rw [show Int.toNat (-5) = 0 from rfl]
  simp [sample_counts, corpus2, pA, pB]

/-- Claim C5 (amended): the source never validates the sample count and
never reports InvalidSampleCount. With n = 0 the empty sampling loop runs
and the final normalization divides by zero (an uncaught
ZeroDivisionError, modelled as none); with n < 0 the empty loop runs and a
distribution assigning 0 to every page is returned without any error. -/
theorem c5_sample_nonpositive (c : Corpus) (d : ℚ) (n : ℤ)
    (picks : Nat → Nat) :
    (n = 0 → sample_pagerank c d n picks = none)
    ∧ (n < 0 → sample_pagerank c d n picks
        = some (c.pages.map (fun p => (p, (0 : ℚ))))) := by
  constructor
  · intro h
    subst h
    simp [sample_pagerank]
  · intro h
    have hne : n ≠ 0 := by omega
    have htn : n.toNat = 0 := by omega
    unfold sample_pagerank
    rw [if_neg hne, htn]
    show some ((c.pages.map (fun p => (p, (0:ℕ)))).map
      (fun kv => (kv.1, (kv.2 : ℚ) / (n : ℚ)))) = _
    rw [List.map_map]
    simp

/-- Claim C5 witness: the amended behavior at concrete inputs, n = 0
failing with the division error and n = -5 returning all zeros. -/
theorem c5_sample_nonpositive_witness :
    sample_pagerank corpus2 (17/20) 0 picks0 = none
    ∧ sample_pagerank corpus2 (17/20) (-5) picks0
        = some (corpus2.pages.map (fun p => (p, (0 : ℚ)))) :=
  ⟨(c5_sample_nonpositive corpus2 (17/20) 0 picks0).1 rfl,
   (c5_sample_nonpositive corpus2 (17/20) (-5) picks0).2 (by norm_num)⟩

/-- Claim C6 counterexample: no damping-factor validation exists. With
damping factor 2, far outside (0,1), transition_model returns a
distribution containing the negative value -1/2, and iterate_pagerank on
the one-page corpus happily computes and returns a result; neither
rejects the value, before computation or at all. -/
theorem c6_counterexample :
    transition_model corpus2 pB 2 = [(pA, 3/2), (pB, -1/2)]
    ∧ iterate_pagerank (singleCorpus pA) 2 1 = some [(pA, 1)] := by
  constructor
  · simp [transition_model, addKey, corpus2, pA, pB]
    norm_num
  · have hinit : init_ranks (singleCorpus pA) = [(pA, 1)] := by
      simp [init_ranks, singleCorpus]
    have hp : one_pass (singleCorpus pA) 2 [(pA, 1)] = ([(pA, 1)], false) := by
      simp [one_pass, pass_page, singleCorpus, lookup, setKey, lt_abs]
    show iterate_loop (singleCorpus pA) 2 1 (init_ranks (singleCorpus pA)) = _
    rw [hinit]
    exact iterate_loop_succ_false hp 0

/-- Claim C6 (amended): damping factors are never validated: for every
corpus, page and damping factor whatsoever, inside or outside (0,1),
transition_model computes and returns a distribution keyed by the full
universe instead of rejecting the value, and iterate_pagerank likewise
proceeds with the unvalidated value. -/
theorem c6_no_damping_validation (c : Corpus) (page : String) (d : ℚ) :
    (transition_model c page d).map Prod.fst = c.pages := by
  unfold transition_model
  by_cases h : (c.links page).length = 0
  · rw [if_pos h]
    exact keys_map_pair _ _
  · rw [if_neg h, keys_foldl_addKey]
    exact keys_map_pair _ _

/-- Claim C7: on a corpus whose universe is a single page with no links,
for any damping factor in (0,1), any positive sample count and any random
outcome, sample_pagerank returns the distribution mapping that page to
exactly 1, and iterate_pagerank converges after its first pass (any
positive fuel) to that same distribution. -/
theorem c7_single_page (name : String) (d : ℚ) (n : ℤ) (picks : Nat → Nat)
    (fuel : Nat) (hd0 : 0 < d) (hd1 : d < 1) (hn : 0 < n) :
    sample_pagerank (singleCorpus name) d n picks = some [(name, 1)]
    ∧ iterate_pagerank (singleCorpus name) d (fuel + 1) = some [(name, 1)] := by
  have hne : n ≠ 0 := by omega
  have hcounts : ∀ steps,
      sample_counts (singleCorpus name) picks steps = [(name, steps)] := by
    intro steps
    induction steps with
    | zero => rfl
    | succ s ih =>
      show addCount (sample_counts (singleCorpus name) picks s)
          (chosen (singleCorpus name) picks s) = [(name, s + 1)]
      have hch : chosen (singleCorpus name) picks s = name := by
        unfold chosen singleCorpus
        simp [Nat.mod_one]
      rw [ih, hch]
      simp [addCount]
  have hdiv : ((n.toNat : ℚ)) / (n : ℚ) = 1 := by
    have h1 : ((n.toNat : ℤ) : ℚ) = ((n : ℤ) : ℚ) := by
      rw [Int.toNat_of_nonneg hn.le]
    push_cast at h1
    rw [h1]
    exact div_self (Int.cast_ne_zero.mpr hne)
  constructor
  · unfold sample_pagerank
    rw [if_neg hne, hcounts]
    show some [(name, ((n.toNat : ℚ)) / (n : ℚ))] = some [(name, 1)]
    rw [hdiv]
  · have hpp : pass_page (singleCorpus name) d [(name, 1)] name = 1 := by
      simp [pass_page, singleCorpus, lookup]
    have hstep : one_pass (singleCorpus name) d [(name, 1)]
        = ([(name, 1)], false) := by
      show (setKey [(name, 1)] name
          (pass_page (singleCorpus name) d [(name, 1)] name),
        if |pass_page (singleCorpus name) d [(name, 1)] name
            - lookup [(name, 1)] name| > 1/1000
        then true else false) = ([(name, 1)], false)
      rw [hpp]
      simp [setKey, lookup]
    have hinit : init_ranks (singleCorpus name) = [(name, 1)] := by
      simp [init_ranks, singleCorpus]
    show iterate_loop (singleCorpus name) d (fuel + 1)
        (init_ranks (singleCorpus name)) = some [(name, 1)]
    rw [hinit]
    exact iterate_loop_succ_false hstep fuel

/-- Claim C7 witness: the theorem at the one-page corpus A with damping
factor 0.85, sample count 10 and the constant random oracle. -/
theorem c7_single_page_witness :
    sample_pagerank (singleCorpus pA) (17/20) 10 picks0 = some [(pA, 1)]
    ∧ iterate_pagerank (singleCorpus pA) (17/20) 1 = some [(pA, 1)] :=
  c7_single_page pA (17/20) 10 picks0 0 (by norm_num) (by norm_num)
    (by norm_num)

/-- Claim C8: iterate_pagerank is a deterministic pure function of the
graph, the damping factor and the fuel: two calls with the same arguments
return identical output. The embedding is randomness-free, mirroring the
source, whose iterate_pagerank never consults the random module. -/
theorem c8_deterministic (ca cb : Corpus) (da db : ℚ) (fa fb : Nat)
    (hc : ca = cb) (hd : da = db) (hf : fa = fb) :
    iterate_pagerank ca da fa = iterate_pagerank cb db fb := by
  subst hc
  subst hd
  subst hf
  rfl

/-- Claim C8 witness: two identical calls on the two-page corpus agree. -/
theorem c8_deterministic_witness :
    iterate_pagerank corpus2 (17/20) 13 = iterate_pagerank corpus2 (17/20) 13 :=
  c8_deterministic corpus2 corpus2 (17/20) (17/20) 13 13 rfl rfl rfl

/-- Claim C9: on a non-empty universe with distinct keys, for a damping
factor in (0,1), a positive sample count n and every possible sequence of
random draws, sample_pagerank returns a distribution keyed by the full
universe whose every value is a visit count divided by n (a non-negative
integer multiple of 1/n); the visit counts sum to exactly n, so the
returned values sum to exactly 1 in exact rational arithmetic. -/
theorem c9_sample_exact (c : Corpus) (d : ℚ) (n : ℤ) (picks : Nat → Nat)
    (hne : c.pages ≠ []) (hnd : c.pages.Nodup)
    (hd0 : 0 < d) (hd1 : d < 1) (hn : 0 < n) :
    ∃ r, sample_pagerank c d n picks = some r
      ∧ r.map Prod.fst = c.pages
      ∧ (∀ v ∈ r.map Prod.snd, ∃ k : ℕ, v = (k : ℚ) / (n : ℚ))
      ∧ ((sample_counts c picks n.toNat).map Prod.snd).sum = n.toNat
      ∧ valsSum r = 1 := by
  have hne0 : n ≠ 0 := by omega
  refine ⟨(sample_counts c picks n.toNat).map
    (fun kv => (kv.1, (kv.2 : ℚ) / (n : ℚ))), ?_, ?_, ?_, ?_, ?_⟩
  · unfold sample_pagerank
    rw [if_neg hne0]
  · rw [List.map_map]
    have hcomp : (Prod.fst ∘ fun kv : String × ℕ =>
        (kv.1, (kv.2 : ℚ) / (n : ℚ))) = Prod.fst := rfl
    rw [hcomp, keys_sample_counts]
  · intro v hv
    simp only [List.map_map, List.mem_map, Function.comp] at hv
    obtain ⟨kv, _, hkv⟩ := hv
    exact ⟨kv.2, hkv.symm⟩
  · exact countsSum_sample_counts c picks hne hnd n.toNat
  · unfold valsSum
    rw [List.map_map]
    have hgen : ∀ l : List (String × ℕ),
        (l.map (Prod.snd ∘ fun kv : String × ℕ =>
          (kv.1, (kv.2 : ℚ) / (n : ℚ)))).sum
        = (((l.map Prod.snd).sum : ℕ) : ℚ) / (n : ℚ) := by
      intro l
      induction l with
      | nil => simp
      | cons kv rest ih =>
        simp only [List.map_cons, List.sum_cons, ih, Function.comp]
        push_cast
        rw [add_div]
    rw [hgen, countsSum_sample_counts c picks hne hnd n.toNat]
    have h1 : ((n.toNat : ℤ) : ℚ) = ((n : ℤ) : ℚ) := by
      rw [Int.toNat_of_nonneg hn.le]
    push_cast at h1
    rw [h1]
    exact div_self (Int.cast_ne_zero.mpr hne0)

/-- Claim C9 witness: with the constant oracle and n = 4 on the two-page
corpus, the returned values sum to exactly 1. -/
theorem c9_sample_exact_witness :
    valsSum ((sample_pagerank corpus2 (17/20) 4 picks0).getD []) = 1 := by
  obtain ⟨r, hr, _, _, _, hsum⟩ :=
    c9_sample_exact corpus2 (17/20) 4 picks0 (by decide) (by decide)
      (by norm_num) (by norm_num) (by norm_num)
  rw [hr]
  simpa using hsum

/-- Claim C10: with a damping factor in (0,1) on a non-empty universe,
every rank iterate_pagerank stores is strictly positive: the initial
ranks are exactly 1/N; one pass maps any state with non-negative values
whose keys are the universe to a state in which every page of the
universe has rank at least (1 - d)/N; and any returned distribution is
keyed by the universe and gives every page a rank at least
(1 - d)/N, which is strictly positive. -/
theorem c10_lower_bound (c : Corpus) (d : ℚ) (hd0 : 0 < d) (hd1 : d < 1)
    (hne : c.pages ≠ []) :
    (∀ p ∈ c.pages, lookup (init_ranks c) p = 1 / (c.pages.length : ℚ)
      ∧ 0 < lookup (init_ranks c) p)
    ∧ (∀ st : List (String × ℚ), (∀ kv ∈ st, 0 ≤ kv.2) →
        st.map Prod.fst = c.pages →
        ∀ p ∈ c.pages,
          (1 - d) / (c.pages.length : ℚ) ≤ lookup (one_pass c d st).1 p)
    ∧ (∀ fuel r, iterate_pagerank c d fuel = some r →
        r.map Prod.fst = c.pages ∧
        ∀ p ∈ c.pages,
          (1 - d) / (c.pages.length : ℚ) ≤ lookup r p ∧ 0 < lookup r p) := by
  have hNpos : (0:ℚ) < (c.pages.length : ℚ) := by
    have h := List.length_pos.mpr hne
    exact_mod_cast h
  have hBpos : 0 < (1 - d) / (c.pages.length : ℚ) :=
    div_pos (by linarith) hNpos
  refine ⟨?_, ?_, ?_⟩
  · intro p hp
    unfold init_ranks
    rw [lookup_map_pair _ hp]
    exact ⟨rfl, by positivity⟩
  · intro st hst hkeys p hp
    rw [one_pass_ranks]
    exact pass_ranks_bound_mem c hd0.le hd1.le c.pages st p hst hkeys hp
      (fun x hx => hx)
  · intro fuel r hr
    have hinitnn : ∀ kv ∈ init_ranks c, 0 ≤ kv.2 := by
      intro kv hkv
      simp only [init_ranks, List.mem_map] at hkv
      obtain ⟨p, _, hkv⟩ := hkv
      rw [← hkv]
      positivity
    have hres := iterate_loop_lower c hd0.le hd1.le fuel (init_ranks c) r
      hinitnn (keys_map_pair _ _) hr
    exact ⟨hres.1, fun p hp =>
      ⟨hres.2 p hp, lt_of_lt_of_le hBpos (hres.2 p hp)⟩⟩

/-- Claim C10 witness: the initial rank of page A in the two-page corpus
is 1/2, which is strictly positive. -/
theorem c10_lower_bound_witness :
    lookup (init_ranks corpus2) pA = 1 / ((corpus2.pages.length : ℚ))
    ∧ 0 < lookup (init_ranks corpus2) pA :=
  (c10_lower_bound corpus2 (17/20) (by norm_num) (by norm_num)
    (by decide)).1 pA (by decide)
